import Mathlib

/-!
Verification of `tower/__init__.py`: a shallow embedding of the
context-qualified message API (`ugettext`, `ungettext`, `add_context`,
`split_context`, `strip_whitespace`), the locale catalog resolver
(`_activate`, `deactivate_all`) and the extractor payload rewriter
(`tweak_message`), together with theorems settling the specification's
claims about them.

Strings are modelled as lists of characters (`Str`).  The collaborating
translation machinery (django's `ugettext`/`ungettext` lookup against the
active catalog, `to_locale`, `translation`, the supplementary
`gettext.translation` loader) is passed in as explicit parameters, and the
resolver's object graph (catalog objects mutated in place, django's
process-wide `_translations` cache) is modelled by an explicit heap of
catalog records addressed by natural numbers.
-/

namespace Tower

/-- Python strings, modelled as lists of characters. -/
abbrev Str : Type := List Char

/-- The characters matched by the regex class `\s` on ASCII input
(space, tab, newline, carriage return, vertical tab, form feed).
`strip_whitespace` compiles `r'\s+'` with `re.UNICODE`; the non-ASCII
whitespace code points are not modelled. -/
def isWs (c : Char) : Bool :=
  c == ' ' || c == '\t' || c == '\n' || c == '\r' ||
    c == Char.ofNat 11 || c == Char.ofNat 12

/-- `re.sub(r'\s+', ' ', message)`: every maximal run of whitespace
characters is replaced by a single space. -/
def squeezeWs : Str → Str
  | [] => []
  | [c] => if isWs c then [' '] else [c]
  | c :: d :: rest =>
    if isWs c then
      (if isWs d then squeezeWs (d :: rest) else ' ' :: squeezeWs (d :: rest))
    else c :: squeezeWs (d :: rest)

/-- Python's `str.strip()`: drop whitespace from both ends. -/
def stripEnds (l : Str) : Str :=
  List.rdropWhile isWs (l.dropWhile isWs)

/-- `strip_whitespace(message)` from `tower/__init__.py`:
`re.compile(r'\s+', re.UNICODE).sub(' ', message).strip()`. -/
def strip_whitespace (message : Str) : Str :=
  stripEnds (squeezeWs message)

/-- The "magic gettext number" `\x04` used to glue a context onto a
message id. -/
def SEP : Char := Char.ofNat 4

/-- `add_context(context, message)` from `tower/__init__.py`:
`u"%s\x04%s" % (context, message)`. -/
def add_context (context message : Str) : Str :=
  context ++ SEP :: message

/-- `split_context(message)` from `tower/__init__.py`: split on the
separator byte; a context-free message gets the empty context inserted
in front. -/
def split_context (message : Str) : List Str :=
  let ret := message.splitOn SEP
  if ret.length = 1 then [] :: ret else ret

/-- The conditional `add_context(context, stripped) if context else stripped`
shared by `ugettext` and `ungettext`: a `None` or empty context leaves the
message unqualified (Python truthiness). -/
def qualify (context : Option Str) (stripped : Str) : Str :=
  match context with
  | some c => if c = [] then stripped else add_context c stripped
  | none => stripped

/-- `ugettext(message, context=None)` from `tower/__init__.py`.  The
collaborator `dj` is django's `ugettext`, i.e. the active catalog's
lookup, which returns its argument unchanged on a miss. -/
def ugettext (dj : Str → Str) (message : Str) (context : Option Str) : Str :=
  let stripped := strip_whitespace message
  let msg := qualify context stripped
  let ret := dj msg
  if ret = msg then stripped else ret

/-- `ungettext(singular, plural, number, context=None)` from
`tower/__init__.py`.  The collaborator `djn` is django's `ungettext`
(the active catalog's plural lookup). -/
def ungettext (djn : Str → Str → Nat → Str) (singular plural : Str)
    (number : Nat) (context : Option Str) : Str :=
  let singular_stripped := strip_whitespace singular
  let plural_stripped := strip_whitespace plural
  let s := qualify context singular_stripped
  let p := qualify context plural_stripped
  let ret := djn s p number
  if ret = s then singular_stripped
  else if ret = p then plural_stripped
  else ret

/-- No two adjacent characters are both whitespace. -/
def noAdjWs : Str → Bool
  | [] => true
  | [_] => true
  | x :: y :: rest => (!(isWs x && isWs y)) && noAdjWs (y :: rest)

/-- A string is in normalized form when its only whitespace characters
are single interior spaces: every whitespace character is a space, no two
adjacent characters are both whitespace, and neither end is whitespace. -/
def normalizedStr (l : Str) : Bool :=
  l.all (fun c => !(isWs c) || c == ' ') &&
  noAdjWs l &&
  l.head?.all (fun c => !(isWs c)) &&
  l.getLast?.all (fun c => !(isWs c))

/-! ### Lemmas about whitespace normalization -/

theorem mem_squeezeWs {c : Char} : ∀ {l : Str}, c ∈ squeezeWs l → c = ' ' ∨ c ∈ l := by
  intro l
  induction l with
  | nil => simp [squeezeWs]
  | cons x t ih =>
    cases t with
    | nil =>
      cases hx : isWs x <;> simp [squeezeWs, hx] <;> tauto
    | cons y r =>
      cases hx : isWs x with
      | true =>
        cases hy : isWs y with
        | true =>
          simp only [squeezeWs, hx, hy, if_true]
          intro h
          rcases ih h with h' | h'
          · exact Or.inl h'
          · exact Or.inr (List.mem_cons_of_mem _ h')
        | false =>
          simp only [squeezeWs, hx, hy, if_true, Bool.false_eq_true, if_false,
            List.mem_cons]
          rintro (rfl | h)
          · exact Or.inl rfl
          · rcases ih h with h' | h'
            · exact Or.inl h'
            · simp only [List.mem_cons] at h'
              tauto
      | false =>
        simp only [squeezeWs, hx, Bool.false_eq_true, if_false, List.mem_cons]
        rintro (rfl | h)
        · exact Or.inr (Or.inl rfl)
        · rcases ih h with h' | h'
          · exact Or.inl h'
          · simp only [List.mem_cons] at h'
            tauto

theorem ws_mem_squeezeWs {c : Char} : ∀ {l : Str},
    c ∈ squeezeWs l → isWs c = true → c = ' ' := by
  intro l
  induction l with
  | nil => simp [squeezeWs]
  | cons x t ih =>
    cases t with
    | nil =>
      cases hx : isWs x with
      | true =>
        simp only [squeezeWs, hx, if_true, List.mem_singleton]
        rintro rfl _
        rfl
      | false =>
        simp only [squeezeWs, hx, Bool.false_eq_true, if_false, List.mem_singleton]
        rintro rfl hw
        rw [hw] at hx
        exact absurd hx (by simp)
    | cons y r =>
      cases hx : isWs x with
      | true =>
        cases hy : isWs y with
        | true => simpa only [squeezeWs, hx, hy, if_true] using ih
        | false =>
          simp only [squeezeWs, hx, hy, if_true, Bool.false_eq_true, if_false,
            List.mem_cons]
          rintro (rfl | h)
          · intro _; rfl
          · exact ih h
      | false =>
        simp only [squeezeWs, hx, Bool.false_eq_true, if_false, List.mem_cons]
        rintro (rfl | h)
        · intro hw
          rw [hw] at hx
          exact absurd hx (by simp)
        · exact ih h

theorem squeezeWs_head? : ∀ (rest : Str) (c : Char),
    (squeezeWs (c :: rest)).head? = some (if isWs c then ' ' else c) := by
  intro rest
  induction rest with
  | nil =>
    intro c
    cases hc : isWs c <;> simp [squeezeWs, hc]
  | cons d r ih =>
    intro c
    cases hc : isWs c with
    | true =>
      cases hd : isWs d with
      | true =>
        simp only [squeezeWs, hc, hd, if_true]
        rw [ih d]
        simp [hd]
      | false => simp [squeezeWs, hc, hd]
    | false => simp [squeezeWs, hc]

theorem chain'_squeezeWs : ∀ (l : Str),
    List.Chain' (fun x y => isWs x = false ∨ isWs y = false) (squeezeWs l) := by
  intro l
  induction l with
  | nil => simp [squeezeWs]
  | cons x t ih =>
    cases t with
    | nil =>
      cases hx : isWs x <;> simp [squeezeWs, hx]
    | cons y r =>
      cases hx : isWs x with
      | true =>
        cases hy : isWs y with
        | true => simpa only [squeezeWs, hx, hy, if_true] using ih
        | false =>
          simp only [squeezeWs, hx, hy, if_true, Bool.false_eq_true, if_false]
          rw [List.chain'_cons']
          refine ⟨?_, ih⟩
          intro z hz
          rw [squeezeWs_head?] at hz
          simp only [hy, Bool.false_eq_true, if_false, Option.mem_def,
            Option.some.injEq] at hz
          subst hz
          exact Or.inr hy
      | false =>
        simp only [squeezeWs, hx, Bool.false_eq_true, if_false]
        rw [List.chain'_cons']
        exact ⟨fun z _ => Or.inl hx, ih⟩

theorem mem_stripEnds {c : Char} {l : Str} (h : c ∈ stripEnds l) : c ∈ l := by
  unfold stripEnds at h
  exact (List.dropWhile_suffix isWs).subset
    ((List.rdropWhile_prefix isWs (l.dropWhile isWs)).subset h)

theorem chain'_stripEnds {l : Str}
    (h : List.Chain' (fun x y => isWs x = false ∨ isWs y = false) l) :
    List.Chain' (fun x y => isWs x = false ∨ isWs y = false) (stripEnds l) := by
  unfold stripEnds List.rdropWhile
  have h1 : List.Chain' (fun x y => isWs x = false ∨ isWs y = false) (l.dropWhile isWs) :=
    h.suffix (List.dropWhile_suffix isWs)
  have h2 : List.Chain' (fun x y => isWs x = false ∨ isWs y = false)
      (l.dropWhile isWs).reverse :=
    List.chain'_reverse.mpr (h1.imp (fun _ _ hxy => hxy.symm))
  have h3 : List.Chain' (fun x y => isWs x = false ∨ isWs y = false)
      ((l.dropWhile isWs).reverse.dropWhile isWs) :=
    h2.suffix (List.dropWhile_suffix isWs)
  exact List.chain'_reverse.mpr (h3.imp (fun _ _ hxy => hxy.symm))

theorem stripEnds_head? {l : Str} :
    (stripEnds l).head?.all (fun c => !(isWs c)) = true := by
  cases hh : (stripEnds l).head? with
  | none => simp
  | some c =>
    suffices hc : isWs c = false by simp [hc]
    unfold stripEnds at hh
    obtain ⟨t, ht⟩ := List.rdropWhile_prefix isWs (l.dropWhile isWs)
    cases hrd : List.rdropWhile isWs (l.dropWhile isWs) with
    | nil => rw [hrd] at hh; simp at hh
    | cons c0 rest =>
      rw [hrd] at hh
      simp only [List.head?_cons, Option.some.injEq] at hh
      subst hh
      rw [hrd] at ht
      have hA : (l.dropWhile isWs).head? = some c0 := by
        rw [← ht]; simp
      have := List.head?_dropWhile_not isWs l
      rw [hA] at this
      exact this

theorem stripEnds_getLast? {l : Str} :
    (stripEnds l).getLast?.all (fun c => !(isWs c)) = true := by
  cases hh : (stripEnds l).getLast? with
  | none => simp
  | some c =>
    suffices hc : isWs c = false by simp [hc]
    unfold stripEnds at hh
    have hne : List.rdropWhile isWs (l.dropWhile isWs) ≠ [] := by
      intro hnil
      rw [hnil] at hh
      simp at hh
    have hlast := List.rdropWhile_last_not isWs (l.dropWhile isWs) hne
    rw [List.getLast?_eq_getLast _ hne] at hh
    simp only [Option.some.injEq] at hh
    subst hh
    simpa using hlast

theorem noAdjWs_iff_chain : ∀ (l : Str), noAdjWs l = true ↔
    List.Chain' (fun x y => isWs x = false ∨ isWs y = false) l := by
  intro l
  induction l with
  | nil => simp [noAdjWs]
  | cons x t ih =>
    cases t with
    | nil => simp [noAdjWs]
    | cons y r =>
      rw [List.chain'_cons, ← ih]
      have hstep : noAdjWs (x :: y :: r) = ((!(isWs x && isWs y)) && noAdjWs (y :: r)) :=
        rfl
      rw [hstep, Bool.and_eq_true]
      constructor
      · rintro ⟨h1, h2⟩
        refine ⟨?_, h2⟩
        cases hx : isWs x with
        | false => exact Or.inl rfl
        | true =>
          cases hy : isWs y with
          | false => exact Or.inr rfl
          | true =>
            rw [hx, hy] at h1
            simp at h1
      · rintro ⟨h1, h2⟩
        refine ⟨?_, h2⟩
        rcases h1 with h | h <;> simp [h]

theorem mem_strip_whitespace {c : Char} {m : Str} (h : c ∈ strip_whitespace m) :
    c = ' ' ∨ c ∈ m := by
  unfold strip_whitespace at h
  exact mem_squeezeWs (mem_stripEnds h)

/-- `strip_whitespace` always produces a normalized string: only single
interior spaces, no whitespace at either end. -/
theorem normalizedStr_strip_whitespace (m : Str) :
    normalizedStr (strip_whitespace m) = true := by
  unfold normalizedStr
  rw [Bool.and_eq_true, Bool.and_eq_true, Bool.and_eq_true]
  refine ⟨⟨⟨?_, ?_⟩, ?_⟩, ?_⟩
  · rw [List.all_eq_true]
    intro c hc
    by_cases hw : isWs c
    · have : c = ' ' := ws_mem_squeezeWs (mem_stripEnds hc) hw
      simp [this]
    · simp [hw]
  · rw [noAdjWs_iff_chain]
    exact chain'_stripEnds (chain'_squeezeWs m)
  · exact stripEnds_head?
  · exact stripEnds_getLast?

/-! ### The message extractor's payload rewriter -/

/-- An element of an extracted payload tuple: either a Python string
(`basestring`) or some other object (e.g. the count placeholder),
identified by an opaque tag. -/
inductive PyObj where
  | s : Str → PyObj
  | obj : Nat → PyObj
deriving DecidableEq

/-- `"%s" % x`: the string itself, or `str(x)` for a non-string. -/
def pyStr : PyObj → Str
  | .s m => m
  | .obj k => (Nat.repr k).toList

/-- The `message` argument of `tweak_message`: a bare string, a tuple, or
any other object (passed through unchanged). -/
inductive Payload where
  | str : Str → Payload
  | tup : List PyObj → Payload
  | other : Payload
deriving DecidableEq

/-- `tweak_message(message)` from `tower/__init__.py`.  Bare strings are
whitespace-stripped; a 2-tuple `(string, context)` becomes
`add_context(context, string)`; a 3-tuple whose first two elements are
strings has both stripped; a 4-tuple `(singular, plural, num, ctxt)`
becomes a 3-tuple of context-qualified stripped forms.  `none` models the
`TypeError` Python raises when `strip_whitespace` is applied to a
non-string in the unguarded 4-tuple branch. -/
def tweak_message : Payload → Option Payload
  | .str m => some (.str (strip_whitespace m))
  | .tup [m0, m1] => some (.str (add_context (pyStr m1) (pyStr m0)))
  | .tup [m0, m1, m2] =>
    match m0, m1 with
    | .s a, .s b =>
      some (.tup [.s (strip_whitespace a), .s (strip_whitespace b), m2])
    | _, _ => some (.tup [m0, m1, m2])
  | .tup [m0, m1, m2, m3] =>
    match m0, m1 with
    | .s a, .s b =>
      some (.tup [.s (add_context (pyStr m3) (strip_whitespace a)),
                  .s (add_context (pyStr m3) (strip_whitespace b)), m2])
    | _, _ => none
  | .tup l => some (.tup l)
  | .other => some .other

/-! ### The locale catalog resolver

`_activate` manipulates an object graph: django's process-wide
`_translations` cache maps locale tags to translation-catalog objects,
catalog objects are mutated in place (`set_language`, `merge`,
`t.plural = ...`), and `copy.deepcopy` makes an independent object.  The
graph is modelled by a heap: addresses are naturals, `World.heap` gives
each address's catalog record, `World.translations` is the cache (an
association list whose most recent binding wins, like a dict), and
`World.nextAddr` is the allocator. -/

/-- A translation-catalog object: its `_catalog` mapping, its plural rule
(a function from a count to a plural-form index) and its language tag. -/
structure CatalogData where
  catalog : Str → Option Str
  plural : Nat → Nat
  language : Str

/-- The mutable state `_activate` touches. -/
structure World where
  heap : Nat → CatalogData
  translations : List (Str × Nat)
  nextAddr : Nat

/-- Why the supplementary catalog load raised `IOError`.  In Python 2,
`gettext.translation` raises `IOError(ENOENT)` when no catalog file
exists, `IOError(0, 'Bad magic number' / 'File is corrupt', ...)` when the
`.mo` file is malformed, and `open(mofile, 'rb')` raises `IOError(EACCES)`
when the file is unreadable — all the same exception type, so
`except IOError: pass` catches every one of them. -/
inductive IOErrorKind where
  | fileNotFound
  | badMagicNumber
  | fileCorrupt
  | permissionDenied
deriving DecidableEq

/-- Result of `gettext.translation(domain, path, [locale], ...)`:
a catalog, an `IOError` of some kind (caught by `except IOError: pass`),
or an exception of any other type (propagates — e.g. `ImportError` from
`import_module`, `AttributeError` from `.path`). -/
inductive LoadResult where
  | found : CatalogData → LoadResult
  | ioError : IOErrorKind → LoadResult
  | otherError : LoadResult

/-- The fixed collaborators: django's `to_locale`, the address of the
catalog object django's `translation()` produces for a locale (possibly
the shared default-locale catalog), whether `settings.SETTINGS_MODULE`
is available, and the supplementary catalog loader. -/
structure Env where
  toLocale : Str → Str
  djangoObj : Str → Nat
  settingsModule : Bool
  load : Str → LoadResult

/-- `dict.get(key, None)` on the association list. -/
def tlookup : List (Str × Nat) → Str → Option Nat
  | [], _ => none
  | (k, v) :: rest, key => if k = key then some v else tlookup rest key

/-- Write one heap cell. -/
def updateHeap (h : Nat → CatalogData) (a : Nat) (d : CatalogData) :
    Nat → CatalogData :=
  fun x => if x = a then d else h x

/-- `self._catalog.update(other._catalog)`: the supplementary catalog's
entries win on collision. -/
def mergeCatalog (base bonus : Str → Option Str) : Str → Option Str :=
  fun k =>
    match bonus k with
    | some v => some v
    | none => base k

/-- `django_trans.translation(locale)`: returns the cached object if the
locale is already in django's `_translations` cache, otherwise produces
the catalog object for the locale and sticks it into the cache. -/
def djangoTranslation (env : Env) (w : World) (locale : Str) : Nat × World :=
  match tlookup w.translations locale with
  | some a => (a, w)
  | none =>
    (env.djangoObj locale,
      { w with translations := (locale, env.djangoObj locale) :: w.translations })

/-- `deactivate_all()` from `tower/__init__.py`: django's own deactivation
plus `django_trans._translations = {}` — the process-wide cache is cleared
wholesale. -/
def deactivate_all (w : World) : World :=
  { w with translations := [] }

/-- `_activate(locale)` from `tower/__init__.py`.  Canonicalize the locale,
return the cached catalog on a hit; otherwise deep-copy django's catalog
for the locale, set its language, and — when a settings module is
available — merge the supplementary catalog and overwrite the plural rule.
`except IOError: pass` silently skips the merge on an `IOError` of ANY
kind (missing, malformed or unreadable file); an exception of any other
type propagates (modelled by `Except.error` carrying the state at raise
time).  Finally cache and return the new object. -/
def _activate (env : Env) (w : World) (rawLocale : Str) :
    Except World (Nat × World) :=
  let locale := env.toLocale rawLocale
  match tlookup w.translations locale with
  | some t => Except.ok (t, w)
  | none =>
    let dw := djangoTranslation env w locale
    let a := dw.2.nextAddr
    let copied := dw.2.heap dw.1
    let d1 := { copied with language := locale }
    let w2 : World :=
      { dw.2 with heap := updateHeap dw.2.heap a d1, nextAddr := a + 1 }
    if env.settingsModule then
      match env.load locale with
      | .found bonus =>
        let d2 := { d1 with catalog := mergeCatalog d1.catalog bonus.catalog,
                            plural := bonus.plural }
        let w3 : World := { w2 with heap := updateHeap w2.heap a d2 }
        Except.ok (a, { w3 with translations := (locale, a) :: w3.translations })
      | .ioError _ =>
        Except.ok (a, { w2 with translations := (locale, a) :: w2.translations })
      | .otherError => Except.error w2
    else
      Except.ok (a, { w2 with translations := (locale, a) :: w2.translations })

/-- Every cached address has been allocated. -/
def WorldValid (w : World) : Prop :=
  ∀ p ∈ w.translations, p.2 < w.nextAddr

/-! ### Resolver lemmas -/

/-- The state after a cache miss once django's `translation()` has cached
its object and `_activate` has deep-copied it and set its language: the
copy lives at the previously free address. -/
def copyWorld (env : Env) (w : World) (locale : Str) : World :=
  { heap := updateHeap w.heap w.nextAddr
      { w.heap (env.djangoObj locale) with language := locale },
    translations := (locale, env.djangoObj locale) :: w.translations,
    nextAddr := w.nextAddr + 1 }

/-- `django_trans._translations[locale] = t`. -/
def cacheStore (w : World) (locale : Str) (a : Nat) : World :=
  { w with translations := (locale, a) :: w.translations }

/-- The catalog record after merging the supplementary catalog into the
deep copy and overwriting its plural rule. -/
def mergedData (env : Env) (w : World) (locale : Str) (bonus : CatalogData) :
    CatalogData :=
  { catalog := mergeCatalog (w.heap (env.djangoObj locale)).catalog bonus.catalog,
    plural := bonus.plural,
    language := locale }

theorem tlookup_mem : ∀ {l : List (Str × Nat)} {k : Str} {v : Nat},
    tlookup l k = some v → (k, v) ∈ l := by
  intro l
  induction l with
  | nil => intro k v h; simp [tlookup] at h
  | cons p rest ih =>
    intro k v h
    rw [tlookup] at h
    by_cases hk : p.1 = k
    · rw [if_pos hk] at h
      cases h
      rw [← hk]
      exact List.mem_cons_self _ _
    · rw [if_neg hk] at h
      exact List.mem_cons_of_mem _ (ih h)

theorem activate_hit {env : Env} {w : World} {raw : Str} {t : Nat}
    (h : tlookup w.translations (env.toLocale raw) = some t) :
    _activate env w raw = Except.ok (t, w) := by
  simp only [_activate, h]

theorem activate_miss_noSettings {env : Env} {w : World} {raw : Str}
    (hm : tlookup w.translations (env.toLocale raw) = none)
    (hs : env.settingsModule = false) :
    _activate env w raw = Except.ok (w.nextAddr,
      cacheStore (copyWorld env w (env.toLocale raw)) (env.toLocale raw)
        w.nextAddr) := by
  simp only [_activate, djangoTranslation, hm, hs, Bool.false_eq_true, if_false,
    cacheStore, copyWorld]

theorem activate_miss_ioError {env : Env} {w : World} {raw : Str}
    {k : IOErrorKind}
    (hm : tlookup w.translations (env.toLocale raw) = none)
    (hs : env.settingsModule = true)
    (hl : env.load (env.toLocale raw) = LoadResult.ioError k) :
    _activate env w raw = Except.ok (w.nextAddr,
      cacheStore (copyWorld env w (env.toLocale raw)) (env.toLocale raw)
        w.nextAddr) := by
  simp only [_activate, djangoTranslation, hm, hs, hl, if_true, cacheStore,
    copyWorld]

theorem activate_miss_found {env : Env} {w : World} {raw : Str}
    {bonus : CatalogData}
    (hm : tlookup w.translations (env.toLocale raw) = none)
    (hs : env.settingsModule = true)
    (hl : env.load (env.toLocale raw) = LoadResult.found bonus) :
    _activate env w raw = Except.ok (w.nextAddr,
      cacheStore
        { copyWorld env w (env.toLocale raw) with
            heap := updateHeap (copyWorld env w (env.toLocale raw)).heap
              w.nextAddr (mergedData env w (env.toLocale raw) bonus) }
        (env.toLocale raw) w.nextAddr) := by
  simp only [_activate, djangoTranslation, hm, hs, hl, if_true, cacheStore,
    copyWorld, mergedData]

theorem activate_miss_otherError {env : Env} {w : World} {raw : Str}
    (hm : tlookup w.translations (env.toLocale raw) = none)
    (hs : env.settingsModule = true)
    (hl : env.load (env.toLocale raw) = LoadResult.otherError) :
    _activate env w raw = Except.error (copyWorld env w (env.toLocale raw)) := by
  simp only [_activate, djangoTranslation, hm, hs, hl, if_true, copyWorld]

/-- Every successful `_activate` either hit the cache and returned the
state untouched, or allocated exactly one new object, stored it under the
canonical tag, and left every other heap cell unchanged. -/
theorem activate_cases {env : Env} {w : World} {raw : Str} {a : Nat} {w' : World}
    (h : _activate env w raw = Except.ok (a, w')) :
    (tlookup w.translations (env.toLocale raw) = some a ∧ w' = w) ∨
    (tlookup w.translations (env.toLocale raw) = none ∧ a = w.nextAddr ∧
      w'.nextAddr = w.nextAddr + 1 ∧
      w'.translations = (env.toLocale raw, a) ::
        (env.toLocale raw, env.djangoObj (env.toLocale raw)) :: w.translations ∧
      (∀ x, x ≠ w.nextAddr → w'.heap x = w.heap x)) := by
  cases hm : tlookup w.translations (env.toLocale raw) with
  | some t =>
    rw [activate_hit hm] at h
    injection h with h
    rw [Prod.mk.injEq] at h
    obtain ⟨rfl, rfl⟩ := h
    exact Or.inl ⟨rfl, rfl⟩
  | none =>
    right
    cases hs : env.settingsModule with
    | false =>
      rw [activate_miss_noSettings hm hs] at h
      injection h with h
      rw [Prod.mk.injEq] at h
      obtain ⟨rfl, rfl⟩ := h
      refine ⟨rfl, rfl, rfl, rfl, ?_⟩
      intro x hx
      simp [cacheStore, copyWorld, updateHeap, hx]
    | true =>
      cases hl : env.load (env.toLocale raw) with
      | found bonus =>
        rw [activate_miss_found hm hs hl] at h
        injection h with h
        rw [Prod.mk.injEq] at h
        obtain ⟨rfl, rfl⟩ := h
        refine ⟨rfl, rfl, rfl, rfl, ?_⟩
        intro x hx
        simp [cacheStore, copyWorld, updateHeap, hx]
      | ioError k =>
        rw [activate_miss_ioError hm hs hl] at h
        injection h with h
        rw [Prod.mk.injEq] at h
        obtain ⟨rfl, rfl⟩ := h
        refine ⟨rfl, rfl, rfl, rfl, ?_⟩
        intro x hx
        simp [cacheStore, copyWorld, updateHeap, hx]
      | otherError =>
        rw [activate_miss_otherError hm hs hl] at h
        exact absurd h (by simp)

/-- A successful `_activate` leaves the catalog cached under the
canonical locale tag. -/
theorem activate_stores {env : Env} {w : World} {raw : Str} {a : Nat} {w' : World}
    (h : _activate env w raw = Except.ok (a, w')) :
    tlookup w'.translations (env.toLocale raw) = some a := by
  rcases activate_cases h with ⟨hm, rfl⟩ | ⟨hm, rfl, hn, ht, hh⟩
  · exact hm
  · rw [ht]
    simp [tlookup]

/-- In a valid world, the returned catalog address is allocated. -/
theorem activate_addr_lt {env : Env} {w : World} {raw : Str} {a : Nat} {w' : World}
    (hv : WorldValid w) (h : _activate env w raw = Except.ok (a, w')) :
    a < w'.nextAddr := by
  rcases activate_cases h with ⟨hm, rfl⟩ | ⟨hm, rfl, hn, ht, hh⟩
  · exact hv _ (tlookup_mem hm)
  · omega

/-- `qualify` with a fixed context is injective in the message. -/
theorem qualify_inj {context : Option Str} {x y : Str}
    (h : qualify context x = qualify context y) : x = y := by
  cases context with
  | none => exact h
  | some c =>
    by_cases hc : c = []
    · simpa [qualify, hc] using h
    · simp only [qualify, if_neg hc, add_context] at h
      simpa using List.append_cancel_left h

/-! ### Claim theorems -/

/-- C9 counterexample input: a message with an interior whitespace run. -/
def mRun : Str := ['a', ' ', '\n', ' ', 'b']

/-- C9 counterexample catalog: hits on the (normalized) key and returns a
translation containing a whitespace run. -/
def hitLookup : Str → Str :=
  fun s => if s = ['a', ' ', 'b'] then ['x', '\n', '\n', 'y'] else s

/-- C9 counterexample: for a message with whitespace runs whose catalog
lookup HITS, `ugettext` returns the catalog's string as-is, which need not
be whitespace-normalized — refuting the claim that the returned string is
normalized regardless of whether the lookup hits or misses. -/
theorem ugettext_hit_result_not_normalized :
    noAdjWs mRun = false ∧
    normalizedStr (ugettext hitLookup mRun none) = false := by decide

/-- C9 (amended): `ugettext` always looks up the whitespace-normalized
message; when the lookup misses (returns the key unchanged) the result is
exactly the normalized message — every whitespace run collapsed to a
single space and both ends stripped; when the lookup hits, the catalog's
string is returned as-is. -/
theorem ugettext_normalization (dj : Str → Str) (message : Str) :
    (dj (strip_whitespace message) = strip_whitespace message →
      ugettext dj message none = strip_whitespace message ∧
      normalizedStr (ugettext dj message none) = true) ∧
    (dj (strip_whitespace message) ≠ strip_whitespace message →
      ugettext dj message none = dj (strip_whitespace message)) := by
  constructor
  · intro h
    have he : ugettext dj message none = strip_whitespace message := by
      simp only [ugettext, qualify, h, if_pos]
    rw [he]
    exact ⟨rfl, normalizedStr_strip_whitespace message⟩
  · intro h
    simp only [ugettext, qualify, if_neg h]

/-- C9 amended witness: a concrete miss (identity catalog) and a concrete
hit. -/
theorem ugettext_normalization_witness :
    ((fun s => s) (strip_whitespace mRun) = strip_whitespace mRun ∧
      (ugettext (fun s => s) mRun none = strip_whitespace mRun ∧
        normalizedStr (ugettext (fun s => s) mRun none) = true)) ∧
    (hitLookup (strip_whitespace mRun) ≠ strip_whitespace mRun ∧
      ugettext hitLookup mRun none = hitLookup (strip_whitespace mRun)) :=
  ⟨⟨rfl, (ugettext_normalization (fun s => s) mRun).1 rfl⟩,
   ⟨by decide, (ugettext_normalization hitLookup mRun).2 (by decide)⟩⟩

/-- C2 counterexample message: contains the separator byte itself. -/
def mSep : Str := ['a', SEP, 'b']

/-- C2 counterexample: with an empty catalog (every lookup returns its key
unchanged — a miss), a message that itself contains the separator byte
yields a result containing the separator byte, refuting the claim that the
returned string never contains it. -/
theorem ugettext_miss_can_contain_separator :
    ((fun s => s) (add_context ['c'] (strip_whitespace mSep)) =
      add_context ['c'] (strip_whitespace mSep)) ∧
    SEP ∈ ugettext (fun s => s) mSep (some ['c']) := by decide

/-- C2 (amended): when the lookup of the context-qualified key misses
(returns the key unchanged), `ugettext` returns exactly the
whitespace-normalized message; the separator byte appears in the result
only if it already appears in the message, and the context appears in the
result only if it already appears in the normalized message. -/
theorem ugettext_context_miss_fallback (dj : Str → Str) (message context : Str)
    (hc : context ≠ [])
    (hmiss : dj (add_context context (strip_whitespace message)) =
      add_context context (strip_whitespace message)) :
    ugettext dj message (some context) = strip_whitespace message ∧
    (SEP ∉ message → SEP ∉ ugettext dj message (some context)) ∧
    (¬ context <:+: strip_whitespace message →
      ¬ context <:+: ugettext dj message (some context)) := by
  have he : ugettext dj message (some context) = strip_whitespace message := by
    simp only [ugettext, qualify, if_neg hc, hmiss, if_pos]
  refine ⟨he, ?_, ?_⟩
  · intro hnm hmem
    rw [he] at hmem
    rcases mem_strip_whitespace hmem with h | h
    · exact absurd h (by decide)
    · exact hnm h
  · intro hni
    rw [he]
    exact hni

/-- C2 amended witness. -/
theorem ugettext_context_miss_fallback_witness :
    (['c'] : Str) ≠ [] ∧
    ((fun s => s) (add_context ['c'] (strip_whitespace ['m', ' ', ' ', 'x'])) =
      add_context ['c'] (strip_whitespace ['m', ' ', ' ', 'x'])) ∧
    (ugettext (fun s => s) ['m', ' ', ' ', 'x'] (some ['c']) =
        strip_whitespace ['m', ' ', ' ', 'x'] ∧
      (SEP ∉ (['m', ' ', ' ', 'x'] : Str) →
        SEP ∉ ugettext (fun s => s) ['m', ' ', ' ', 'x'] (some ['c'])) ∧
      (¬ (['c'] : Str) <:+: strip_whitespace ['m', ' ', ' ', 'x'] →
        ¬ (['c'] : Str) <:+: ugettext (fun s => s) ['m', ' ', ' ', 'x'] (some ['c']))) :=
  ⟨by decide, rfl,
    ugettext_context_miss_fallback (fun s => s) ['m', ' ', ' ', 'x'] ['c']
      (by decide) rfl⟩

/-- C4: `ungettext` evaluates the fallback independently per plural form:
a lookup result equal to the qualified singular key yields the normalized
bare singular, one equal to the qualified plural key yields the normalized
bare plural, and anything else is returned as-is. -/
theorem ungettext_per_form_fallback (djn : Str → Str → Nat → Str)
    (singular plural : Str) (number : Nat) (context : Option Str) :
    (djn (qualify context (strip_whitespace singular))
        (qualify context (strip_whitespace plural)) number =
          qualify context (strip_whitespace singular) →
      ungettext djn singular plural number context = strip_whitespace singular) ∧
    (djn (qualify context (strip_whitespace singular))
        (qualify context (strip_whitespace plural)) number =
          qualify context (strip_whitespace plural) →
      ungettext djn singular plural number context = strip_whitespace plural) ∧
    (djn (qualify context (strip_whitespace singular))
        (qualify context (strip_whitespace plural)) number ≠
          qualify context (strip_whitespace singular) →
      djn (qualify context (strip_whitespace singular))
        (qualify context (strip_whitespace plural)) number ≠
          qualify context (strip_whitespace plural) →
      ungettext djn singular plural number context =
        djn (qualify context (strip_whitespace singular))
          (qualify context (strip_whitespace plural)) number) := by
  refine ⟨?_, ?_, ?_⟩
  · intro h
    simp only [ungettext, h, if_pos]
  · intro h
    by_cases h1 : djn (qualify context (strip_whitespace singular))
        (qualify context (strip_whitespace plural)) number =
          qualify context (strip_whitespace singular)
    · have hq : qualify context (strip_whitespace singular) =
          qualify context (strip_whitespace plural) := h1.symm.trans h
      simp only [ungettext, h1, if_pos]
      exact qualify_inj hq
    · simp only [ungettext]
      rw [if_neg h1, if_pos h]
  · intro h1 h2
    simp only [ungettext]
    rw [if_neg h1, if_neg h2]

/-- C4 witness: three concrete catalogs exercising singular-key miss,
plural-key miss, and a genuine translation hit. -/
theorem ungettext_per_form_fallback_witness :
    ((fun s _ _ => s) (qualify (some ['c']) (strip_whitespace ['o', ' ', ' ', 'x']))
        (qualify (some ['c']) (strip_whitespace ['m', '\n', 'x'])) 2 =
          qualify (some ['c']) (strip_whitespace ['o', ' ', ' ', 'x']) ∧
      ungettext (fun s _ _ => s) ['o', ' ', ' ', 'x'] ['m', '\n', 'x'] 2 (some ['c']) =
        strip_whitespace ['o', ' ', ' ', 'x']) ∧
    ((fun _ p _ => p) (qualify (some ['c']) (strip_whitespace ['o', ' ', ' ', 'x']))
        (qualify (some ['c']) (strip_whitespace ['m', '\n', 'x'])) 2 =
          qualify (some ['c']) (strip_whitespace ['m', '\n', 'x']) ∧
      ungettext (fun _ p _ => p) ['o', ' ', ' ', 'x'] ['m', '\n', 'x'] 2 (some ['c']) =
        strip_whitespace ['m', '\n', 'x']) ∧
    (ungettext (fun _ _ _ => ['T']) ['o', ' ', ' ', 'x'] ['m', '\n', 'x'] 2 (some ['c']) =
      ['T']) :=
  ⟨⟨rfl, (ungettext_per_form_fallback (fun s _ _ => s)
      ['o', ' ', ' ', 'x'] ['m', '\n', 'x'] 2 (some ['c'])).1 rfl⟩,
   ⟨rfl, (ungettext_per_form_fallback (fun _ p _ => p)
      ['o', ' ', ' ', 'x'] ['m', '\n', 'x'] 2 (some ['c'])).2.1 rfl⟩,
   (ungettext_per_form_fallback (fun _ _ _ => ['T'])
      ['o', ' ', ' ', 'x'] ['m', '\n', 'x'] 2 (some ['c'])).2.2
     (by decide) (by decide)⟩

/-- C10: `split_context` inverts `add_context` when neither part contains
the separator byte, and inserts the empty context in front of a
separator-free message. -/
theorem split_context_add_context :
    (∀ context message : Str, SEP ∉ context → SEP ∉ message →
      split_context (add_context context message) = [context, message]) ∧
    (∀ s : Str, SEP ∉ s → split_context s = [[], s]) := by
  constructor
  · intro context message hc hm
    have h1 : ∀ x ∈ context, ¬((x == SEP) = true) := by
      intro x hx
      simp only [beq_iff_eq]
      intro hxe
      exact hc (hxe ▸ hx)
    have h2 : ∀ x ∈ message, ¬((x == SEP) = true) := by
      intro x hx
      simp only [beq_iff_eq]
      intro hxe
      exact hm (hxe ▸ hx)
    have hsplit : (add_context context message).splitOn SEP = [context, message] := by
      rw [add_context, List.splitOn,
        List.splitOnP_first (fun x => x == SEP) context h1 SEP (by simp) message,
        List.splitOnP_eq_single (fun x => x == SEP) message h2]
    rw [split_context, hsplit]
    simp
  · intro s hs
    have h2 : ∀ x ∈ s, ¬((x == SEP) = true) := by
      intro x hx
      simp only [beq_iff_eq]
      intro hxe
      exact hs (hxe ▸ hx)
    have hsplit : s.splitOn SEP = [s] := by
      rw [List.splitOn, List.splitOnP_eq_single (fun x => x == SEP) s h2]
    rw [split_context, hsplit]
    simp

/-- C10 witness. -/
theorem split_context_add_context_witness :
    (SEP ∉ (['c', 'x'] : Str) ∧ SEP ∉ (['m', 'y'] : Str) ∧
      split_context (add_context ['c', 'x'] ['m', 'y']) = [['c', 'x'], ['m', 'y']]) ∧
    (SEP ∉ (['m', 'y'] : Str) ∧ split_context ['m', 'y'] = [[], ['m', 'y']]) :=
  ⟨⟨by decide, by decide,
      split_context_add_context.1 ['c', 'x'] ['m', 'y'] (by decide) (by decide)⟩,
   ⟨by decide, split_context_add_context.2 ['m', 'y'] (by decide)⟩⟩

/-- C3: evaluation of `tweak_message` at the failing input: the 2-tuple
branch builds the composite key from the RAW string — the whitespace run
and trailing newline survive — contradicting both the spec and the
function's own docstring (strings are stripped so linebreaks do not show
up in `.po` files), and producing a key that the runtime lookup (which
qualifies the NORMALIZED message) can never match. -/
theorem tweak_message_two_tuple_skips_strip :
    tweak_message (Payload.tup
      [PyObj.s ("Hello   world\n".toList), PyObj.s ("ctx".toList)]) =
      some (Payload.str (add_context ("ctx".toList) ("Hello   world\n".toList))) ∧
    add_context ("ctx".toList) ("Hello   world\n".toList) ≠
      add_context ("ctx".toList) (strip_whitespace ("Hello   world\n".toList)) := by
  decide

/-- C1: a second `resolve` of the same locale returns the identical cached
catalog object with the state completely untouched (no copy or merge work),
while `deactivate_all` followed by `resolve` performs a fresh deep copy: it
allocates a new object, distinct from the previously cached one. -/
theorem activate_cached_then_deactivate_fresh (env : Env) (w : World) (raw : Str)
    (a b : Nat) (w' w'' : World) (hv : WorldValid w)
    (h1 : _activate env w raw = Except.ok (a, w'))
    (h2 : _activate env (deactivate_all w') raw = Except.ok (b, w'')) :
    _activate env w' raw = Except.ok (a, w') ∧
    b = w'.nextAddr ∧ b ≠ a ∧ w''.nextAddr = w'.nextAddr + 1 := by
  have hsecond := activate_hit (activate_stores h1)
  have halt := activate_addr_lt hv h1
  rcases activate_cases h2 with ⟨hm2, rfl⟩ | ⟨hm2, hb, hn2, ht2, hh2⟩
  · simp [deactivate_all, tlookup] at hm2
  · have hb' : b = w'.nextAddr := by simpa [deactivate_all] using hb
    have hn2' : w''.nextAddr = w'.nextAddr + 1 := by
      simpa [deactivate_all] using hn2
    exact ⟨hsecond, hb', by omega, hn2'⟩

/-- C5 (amended): with the locale not yet cached, an `IOError` of ANY kind
raised by the supplementary catalog load — missing file, malformed file
(bad magic number / corrupt), or permission failure — is recovered locally
and silently by `except IOError: pass`, yielding the copy-only catalog
(the deep copy with only its language set), as is an unavailable settings
module; only an exception of a type other than `IOError` propagates out of
`_activate`. -/
theorem activate_error_handling (env : Env) (w : World) (raw : Str)
    (hm : tlookup w.translations (env.toLocale raw) = none) :
    (env.settingsModule = false →
      ∃ w', _activate env w raw = Except.ok (w.nextAddr, w') ∧
        w'.heap w.nextAddr =
          { w.heap (env.djangoObj (env.toLocale raw)) with
              language := env.toLocale raw }) ∧
    (∀ k : IOErrorKind, env.settingsModule = true →
      env.load (env.toLocale raw) = LoadResult.ioError k →
      ∃ w', _activate env w raw = Except.ok (w.nextAddr, w') ∧
        w'.heap w.nextAddr =
          { w.heap (env.djangoObj (env.toLocale raw)) with
              language := env.toLocale raw }) ∧
    (env.settingsModule = true →
      env.load (env.toLocale raw) = LoadResult.otherError →
      ∃ we, _activate env w raw = Except.error we) := by
  refine ⟨?_, ?_, ?_⟩
  · intro hs
    refine ⟨_, activate_miss_noSettings hm hs, ?_⟩
    simp [cacheStore, copyWorld, updateHeap]
  · intro k hs hl
    refine ⟨_, activate_miss_ioError hm hs hl, ?_⟩
    simp [cacheStore, copyWorld, updateHeap]
  · intro hs hl
    exact ⟨_, activate_miss_otherError hm hs hl⟩

/-- C6: when the supplementary catalog loads, the returned catalog's plural
rule is overwritten with the supplementary one, so plural selection for
every count follows the supplementary rule, not the default catalog's. -/
theorem activate_plural_overwrite (env : Env) (w : World) (raw : Str)
    (bonus : CatalogData) (k : Nat)
    (hm : tlookup w.translations (env.toLocale raw) = none)
    (hs : env.settingsModule = true)
    (hl : env.load (env.toLocale raw) = LoadResult.found bonus)
    (hk : bonus.plural k ≠ (w.heap (env.djangoObj (env.toLocale raw))).plural k) :
    ∃ w', _activate env w raw = Except.ok (w.nextAddr, w') ∧
      (∀ n, (w'.heap w.nextAddr).plural n = bonus.plural n) ∧
      (w'.heap w.nextAddr).plural k ≠
        (w.heap (env.djangoObj (env.toLocale raw))).plural k := by
  refine ⟨_, activate_miss_found hm hs hl, ?_, ?_⟩
  · intro n
    simp [cacheStore, copyWorld, updateHeap, mergedData]
  · simpa [cacheStore, copyWorld, updateHeap, mergedData] using hk

/-- C7: `_activate` mutates only the freshly allocated copy: every other
heap cell — in particular the framework-default catalog object the copy
was made from — is unchanged after a successful activation. -/
theorem activate_no_default_mutation (env : Env) (w : World) (raw : Str)
    (a : Nat) (w' : World)
    (h : _activate env w raw = Except.ok (a, w'))
    (hdj : env.djangoObj (env.toLocale raw) < w.nextAddr) :
    (∀ x, x ≠ w.nextAddr → w'.heap x = w.heap x) ∧
    w'.heap (env.djangoObj (env.toLocale raw)) =
      w.heap (env.djangoObj (env.toLocale raw)) := by
  rcases activate_cases h with ⟨hm, rfl⟩ | ⟨hm, ha, hn, ht, hh⟩
  · exact ⟨fun x _ => rfl, rfl⟩
  · exact ⟨hh, hh _ (Nat.ne_of_lt hdj)⟩

/-- C8: both the cache lookup and the cache store are keyed on the
canonicalized locale tag, so two raw inputs with the same canonical form
share one cache entry. -/
theorem activate_canonical_cache_key (env : Env) (w : World) (raw1 raw2 : Str)
    (a : Nat) (w' : World)
    (h12 : env.toLocale raw1 = env.toLocale raw2)
    (h1 : _activate env w raw1 = Except.ok (a, w')) :
    tlookup w'.translations (env.toLocale raw1) = some a ∧
    _activate env w' raw2 = Except.ok (a, w') := by
  have hs := activate_stores h1
  exact ⟨hs, activate_hit (h12 ▸ hs)⟩

/-! ### Concrete instances for the resolver witnesses -/

/-- A default catalog: empty mapping, constant-zero plural rule. -/
def catW : CatalogData :=
  { catalog := fun _ => none, plural := fun _ => 0, language := [] }

/-- A supplementary catalog whose plural rule (index 0 only for count 1)
differs from `catW`'s constant rule. -/
def bonusW : CatalogData :=
  { catalog := fun k => if k = ['a'] then some ['b'] else none,
    plural := fun n => if n = 1 then 0 else 1,
    language := ['e', 'n'] }

/-- Initial world: the default catalog lives at address 0; nothing cached. -/
def w0 : World := { heap := fun _ => catW, translations := [], nextAddr := 1 }

def rawW : Str := ['e', 'n']

def raw2W : Str := ['e', 'n', 'x']

/-- Identity canonicalization, default catalog at 0, supplementary catalog
missing (`IOError(ENOENT)`). -/
def envMissW : Env :=
  { toLocale := fun l => l, djangoObj := fun _ => 0,
    settingsModule := true,
    load := fun _ => LoadResult.ioError IOErrorKind.fileNotFound }

/-- Supplementary catalog present. -/
def envFoundW : Env :=
  { toLocale := fun l => l, djangoObj := fun _ => 0,
    settingsModule := true, load := fun _ => LoadResult.found bonusW }

/-- Supplementary load raises a non-`IOError` exception. -/
def envErrW : Env :=
  { toLocale := fun l => l, djangoObj := fun _ => 0,
    settingsModule := true, load := fun _ => LoadResult.otherError }

/-- Supplementary catalog file exists but is malformed: the load raises
`IOError(0, 'Bad magic number', ...)`. -/
def envBadMagicW : Env :=
  { toLocale := fun l => l, djangoObj := fun _ => 0,
    settingsModule := true,
    load := fun _ => LoadResult.ioError IOErrorKind.badMagicNumber }

/-- Supplementary catalog file exists but is unreadable: `open` raises
`IOError(EACCES)`. -/
def envPermW : Env :=
  { toLocale := fun l => l, djangoObj := fun _ => 0,
    settingsModule := true,
    load := fun _ => LoadResult.ioError IOErrorKind.permissionDenied }

/-- No settings module available. -/
def envNoSetW : Env :=
  { toLocale := fun l => l, djangoObj := fun _ => 0,
    settingsModule := false,
    load := fun _ => LoadResult.ioError IOErrorKind.fileNotFound }

/-- Canonicalization that truncates to two characters, so distinct raw
inputs share a canonical tag. -/
def envCanonW : Env :=
  { toLocale := fun l => l.take 2, djangoObj := fun _ => 0,
    settingsModule := true,
    load := fun _ => LoadResult.ioError IOErrorKind.fileNotFound }

/-- State after the first activation of `rawW` in `envMissW`. -/
def w1W : World := cacheStore (copyWorld envMissW w0 rawW) rawW 1

/-- State after deactivation and a second, fresh activation. -/
def w2W : World := cacheStore (copyWorld envMissW (deactivate_all w1W) rawW) rawW 2

/-- State after the first activation of `rawW` in `envCanonW`. -/
def w1C : World := cacheStore (copyWorld envCanonW w0 rawW) rawW 1

/-- C1 witness. -/
theorem activate_cached_then_deactivate_fresh_witness :
    WorldValid w0 ∧
    _activate envMissW w0 rawW = Except.ok (1, w1W) ∧
    _activate envMissW (deactivate_all w1W) rawW = Except.ok (2, w2W) ∧
    (_activate envMissW w1W rawW = Except.ok (1, w1W) ∧
      2 = w1W.nextAddr ∧ (2 : Nat) ≠ 1 ∧ w2W.nextAddr = w1W.nextAddr + 1) := by
  have hv : WorldValid w0 := fun p hp => absurd hp (List.not_mem_nil p)
  have h1 : _activate envMissW w0 rawW = Except.ok (1, w1W) :=
    activate_miss_ioError rfl rfl rfl
  have h2 : _activate envMissW (deactivate_all w1W) rawW = Except.ok (2, w2W) :=
    activate_miss_ioError rfl rfl rfl
  exact ⟨hv, h1, h2,
    activate_cached_then_deactivate_fresh envMissW w0 rawW 1 2 w1W w2W hv h1 h2⟩

/-- C5 counterexample: the claim's own examples of the "propagating" class
do NOT propagate.  A malformed supplementary catalog (`IOError` bad magic
number) and a permission failure (`IOError(EACCES)`) are both swallowed by
`except IOError: pass`: `_activate` SUCCEEDS, returning the copy-only
catalog, instead of letting the exception out. -/
theorem activate_swallows_malformed_and_permission_errors :
    _activate envBadMagicW w0 rawW =
      Except.ok (1, cacheStore (copyWorld envBadMagicW w0 rawW) rawW 1) ∧
    _activate envPermW w0 rawW =
      Except.ok (1, cacheStore (copyWorld envPermW w0 rawW) rawW 1) :=
  ⟨activate_miss_ioError rfl rfl rfl, activate_miss_ioError rfl rfl rfl⟩

/-- C5 witness. -/
theorem activate_error_handling_witness :
    (∃ w', _activate envNoSetW w0 rawW = Except.ok (w0.nextAddr, w') ∧
      w'.heap w0.nextAddr =
        { w0.heap (envNoSetW.djangoObj (envNoSetW.toLocale rawW)) with
            language := envNoSetW.toLocale rawW }) ∧
    (∃ w', _activate envMissW w0 rawW = Except.ok (w0.nextAddr, w') ∧
      w'.heap w0.nextAddr =
        { w0.heap (envMissW.djangoObj (envMissW.toLocale rawW)) with
            language := envMissW.toLocale rawW }) ∧
    (∃ we, _activate envErrW w0 rawW = Except.error we) :=
  ⟨(activate_error_handling envNoSetW w0 rawW rfl).1 rfl,
   (activate_error_handling envMissW w0 rawW rfl).2.1
     IOErrorKind.fileNotFound rfl rfl,
   (activate_error_handling envErrW w0 rawW rfl).2.2 rfl rfl⟩

/-- C6 witness: the supplementary plural rule differs from the default at
count 2, and after activation the merged catalog follows it everywhere. -/
theorem activate_plural_overwrite_witness :
    bonusW.plural 2 ≠
      (w0.heap (envFoundW.djangoObj (envFoundW.toLocale rawW))).plural 2 ∧
    (∃ w', _activate envFoundW w0 rawW = Except.ok (w0.nextAddr, w') ∧
      (∀ n, (w'.heap w0.nextAddr).plural n = bonusW.plural n) ∧
      (w'.heap w0.nextAddr).plural 2 ≠
        (w0.heap (envFoundW.djangoObj (envFoundW.toLocale rawW))).plural 2) :=
  ⟨by decide,
   activate_plural_overwrite envFoundW w0 rawW bonusW 2 rfl rfl rfl (by decide)⟩

/-- C7 witness: the default catalog at address 0 is untouched by a fresh
activation. -/
theorem activate_no_default_mutation_witness :
    envMissW.djangoObj (envMissW.toLocale rawW) < w0.nextAddr ∧
    w1W.heap (envMissW.djangoObj (envMissW.toLocale rawW)) =
      w0.heap (envMissW.djangoObj (envMissW.toLocale rawW)) := by
  have h1 : _activate envMissW w0 rawW = Except.ok (1, w1W) :=
    activate_miss_ioError rfl rfl rfl
  exact ⟨by decide,
    (activate_no_default_mutation envMissW w0 rawW 1 w1W h1 (by decide)).2⟩

/-- C8 witness: `rawW` and `raw2W` share the canonical tag and hence the
cache entry. -/
theorem activate_canonical_cache_key_witness :
    envCanonW.toLocale rawW = envCanonW.toLocale raw2W ∧
    (tlookup w1C.translations (envCanonW.toLocale rawW) = some 1 ∧
      _activate envCanonW w1C raw2W = Except.ok (1, w1C)) := by
  have h1 : _activate envCanonW w0 rawW = Except.ok (1, w1C) :=
    activate_miss_ioError rfl rfl rfl
  exact ⟨rfl, activate_canonical_cache_key envCanonW w0 rawW raw2W 1 w1C rfl h1⟩

end Tower
